import Mathlib

/-!
Verification development for the CSV-parsing and region-statistics pipeline.

The definitions below are shallow embeddings of the Python sources:
the quote-aware character-level CSV reader (CSVReader.__next__ over a
buffered character stream), the Country/Region data model with its
visitor-style statistic accumulators (PopulationStandardError,
PopulationAreaSimilarity), header binding, and the field typer.
Character streams are modelled as lists of characters: the
next/peek/skip operations of the buffered stream coincide, on executed
paths, with head, head-or-NUL, and tail on the remaining character list.
-/

/-- Model of BufferedStream.peek: the next character of the remaining
stream, or the NUL sentinel when the source is exhausted. -/
def peekChar (cs : List Char) : Char := cs.headD '\x00'

/-- The reader configuration: escape (quote) character, field delimiter
and record separator.  CSVReader.__init__ stores these three characters. -/
structure CSVCfg where
  esc : Char
  delim : Char
  lb : Char
deriving DecidableEq

/-- The default configuration of CSVReader: escape is the double quote,
delimiter the comma, line break the newline. -/
def stdCfg : CSVCfg := ⟨'\"', ',', '\n'⟩

/-- One call of CSVReader.__next__ (draft "new parse 2.py", lines 286-323),
given the remaining stream, the is_escaped flag and the field/record
accumulators.  Returns the produced record together with the remaining
stream, or none when StopIteration is raised.  The branch structure follows
the source line by line: a doubled escape appends one literal escape
character and skips the peeked character; a lone escape toggles the flag;
an unescaped delimiter closes the field; an unescaped line break closes the
record; any other character is appended.  On exhaustion the record is
emitted iff the field accumulator is non-empty.  (When the doubled-escape
branch fires with an empty remaining stream - possible only if the escape
character is the NUL sentinel - the skip is a no-op and the loop then exits
with a non-empty field accumulator, which is what the inlined first match
arm returns.) -/
def csvNextAux (cfg : CSVCfg) : List Char → Bool → List Char → List (List Char) →
    Option (List (List Char) × List Char)
  | [], _, s, r => if s = [] then none else some (r ++ [s], [])
  | c :: rest, e, s, r =>
    if c = cfg.esc ∧ peekChar rest = cfg.esc then
      match rest with
      | [] => some (r ++ [s ++ [c]], [])
      | _ :: rest2 => csvNextAux cfg rest2 e (s ++ [c]) r
    else if c = cfg.esc then
      csvNextAux cfg rest (!e) s r
    else if c = cfg.delim ∧ e = false then
      csvNextAux cfg rest e [] (r ++ [s])
    else if c = cfg.lb ∧ e = false then
      some (r ++ [s], rest)
    else
      csvNextAux cfg rest e (s ++ [c]) r

/-- One call of CSVReader.__next__ from its initial per-call state:
is_escaped false, both accumulators empty. -/
def csvNext (cfg : CSVCfg) (cs : List Char) : Option (List (List Char) × List Char) :=
  csvNextAux cfg cs false [] []

/-- Fuel-indexed iteration of CSVReader.__next__: collect the records
produced until StopIteration. -/
def csvReadFuel (cfg : CSVCfg) : Nat → List Char → List (List (List Char))
  | 0, _ => []
  | fuel + 1, cs =>
    match csvNext cfg cs with
    | none => []
    | some (rec, rest) => rec :: csvReadFuel cfg fuel rest

/-- All records produced by iterating the reader over a character stream
(the list produced by a for-loop over a CSVReader).  One unit of fuel per
input character plus one is always sufficient (csvReadFuel_adequate). -/
def csvRead (cfg : CSVCfg) (cs : List Char) : List (List (List Char)) :=
  csvReadFuel cfg (cs.length + 1) cs

theorem csvNextAux_nil (cfg : CSVCfg) (e : Bool) (s : List Char) (r : List (List Char)) :
    csvNextAux cfg [] e s r = if s = [] then none else some (r ++ [s], []) := rfl

theorem csvNextAux_cons (cfg : CSVCfg) (c : Char) (rest : List Char) (e : Bool)
    (s : List Char) (r : List (List Char)) :
    csvNextAux cfg (c :: rest) e s r =
      if c = cfg.esc ∧ peekChar rest = cfg.esc then
        match rest with
        | [] => some (r ++ [s ++ [c]], [])
        | _ :: rest2 => csvNextAux cfg rest2 e (s ++ [c]) r
      else if c = cfg.esc then
        csvNextAux cfg rest (!e) s r
      else if c = cfg.delim ∧ e = false then
        csvNextAux cfg rest e [] (r ++ [s])
      else if c = cfg.lb ∧ e = false then
        some (r ++ [s], rest)
      else
        csvNextAux cfg rest e (s ++ [c]) r := by
  rw [csvNextAux.eq_def]

/-- A successful call of the reader leaves a strictly shorter remaining
stream, or no remaining stream at all (induction bounded by stream
length, since the doubled-escape branch consumes two characters). -/
theorem csvNextAux_rest_length (cfg : CSVCfg) :
    ∀ (n : Nat) (cs : List Char) (e : Bool) (s : List Char) (r rec : List (List Char))
      (rest : List Char), cs.length ≤ n → csvNextAux cfg cs e s r = some (rec, rest) →
      rest = [] ∨ rest.length < cs.length := by
  intro n
  induction n with
  | zero =>
    intro cs e s r rec rest hlen h
    have hnil : cs = [] := List.length_eq_zero.mp (by omega)
    rw [hnil, csvNextAux_nil] at h
    split at h
    · simp at h
    · simp only [Option.some.injEq, Prod.mk.injEq] at h
      exact Or.inl h.2.symm
  | succ n ih =>
    intro cs e s r rec rest hlen h
    cases cs with
    | nil =>
      rw [csvNextAux_nil] at h
      split at h
      · simp at h
      · simp only [Option.some.injEq, Prod.mk.injEq] at h
        exact Or.inl h.2.symm
    | cons c cs =>
      rw [csvNextAux_cons] at h
      simp only [List.length_cons] at hlen
      split at h
      · cases cs with
        | nil =>
          have h2 : some (r ++ [s ++ [c]], ([] : List Char)) = some (rec, rest) := h
          simp only [Option.some.injEq, Prod.mk.injEq] at h2
          exact Or.inl h2.2.symm
        | cons c2 cs2 =>
          have h2 : csvNextAux cfg cs2 e (s ++ [c]) r = some (rec, rest) := h
          rcases ih cs2 e (s ++ [c]) r rec rest (by simp at hlen ⊢; omega) h2 with h1 | h1
          · exact Or.inl h1
          · right; simp only [List.length_cons] at h1 ⊢; omega
      · split at h
        · rcases ih cs (!e) s r rec rest (by omega) h with h1 | h1
          · exact Or.inl h1
          · right; simp only [List.length_cons]; omega
        · split at h
          · rcases ih cs e [] (r ++ [s]) rec rest (by omega) h with h1 | h1
            · exact Or.inl h1
            · right; simp only [List.length_cons]; omega
          · split at h
            · simp only [Option.some.injEq, Prod.mk.injEq] at h
              right
              rw [← h.2]
              simp
            · rcases ih cs e (s ++ [c]) r rec rest (by omega) h with h1 | h1
              · exact Or.inl h1
              · right; simp only [List.length_cons]; omega

/-- A successful call on a non-empty stream strictly shrinks it. -/
theorem csvNext_rest_lt (cfg : CSVCfg) (cs : List Char) (rec : List (List Char))
    (rest : List Char) (h : csvNext cfg cs = some (rec, rest)) :
    rest.length < cs.length := by
  have hcs : cs ≠ [] := by
    intro hnil
    rw [hnil, csvNext, csvNextAux_nil] at h
    simp at h
  have hpos : 0 < cs.length := List.length_pos.mpr hcs
  rcases csvNextAux_rest_length cfg cs.length cs false [] [] rec rest le_rfl h with hr | hr
  · rw [hr]; simpa using hpos
  · exact hr

/-- The fuel bound in csvRead does not matter once it exceeds the stream
length. -/
theorem csvReadFuel_adequate (cfg : CSVCfg) :
    ∀ (f1 f2 : Nat) (cs : List Char), cs.length < f1 → cs.length < f2 →
      csvReadFuel cfg f1 cs = csvReadFuel cfg f2 cs := by
  intro f1
  induction f1 with
  | zero => intro f2 cs h1; omega
  | succ f1 ih =>
    intro f2 cs h1 h2
    match f2 with
    | 0 => omega
    | f2 + 1 =>
      rw [csvReadFuel, csvReadFuel]
      rcases hnext : csvNext cfg cs with _ | ⟨rec, rest⟩
      · rfl
      · have hrl : rest.length < cs.length := csvNext_rest_lt cfg cs rec rest hnext
        show rec :: csvReadFuel cfg f1 rest = rec :: csvReadFuel cfg f2 rest
        rw [ih f2 rest (by omega) (by omega)]

/-- Unfolding lemma for csvRead in the successful case. -/
theorem csvRead_some (cfg : CSVCfg) (cs : List Char) (rec : List (List Char))
    (rest : List Char) (h : csvNext cfg cs = some (rec, rest)) :
    csvRead cfg cs = rec :: csvRead cfg rest := by
  have hrl : rest.length < cs.length := csvNext_rest_lt cfg cs rec rest h
  rw [csvRead, csvReadFuel, h, csvRead]
  show rec :: csvReadFuel cfg cs.length rest = rec :: csvReadFuel cfg (rest.length + 1) rest
  rw [csvReadFuel_adequate cfg cs.length (rest.length + 1) rest (by omega) (by omega)]

/-- Unfolding lemma for csvRead in the StopIteration case. -/
theorem csvRead_none (cfg : CSVCfg) (cs : List Char) (h : csvNext cfg cs = none) :
    csvRead cfg cs = [] := by
  rw [csvRead, csvReadFuel, h]

theorem csvNextAux_qq_cons (cfg : CSVCfg) (c c2 : Char) (rest : List Char) (e : Bool)
    (s : List Char) (r : List (List Char)) (h1 : c = cfg.esc) (h2 : c2 = cfg.esc) :
    csvNextAux cfg (c :: c2 :: rest) e s r = csvNextAux cfg rest e (s ++ [c]) r := by
  rw [csvNextAux_cons, if_pos ⟨h1, by simpa [peekChar] using h2⟩]

theorem csvNextAux_esc (cfg : CSVCfg) (c : Char) (rest : List Char) (e : Bool)
    (s : List Char) (r : List (List Char)) (h1 : c = cfg.esc)
    (h2 : peekChar rest ≠ cfg.esc) :
    csvNextAux cfg (c :: rest) e s r = csvNextAux cfg rest (!e) s r := by
  rw [csvNextAux_cons, if_neg (fun h => h2 h.2), if_pos h1]

theorem csvNextAux_delim (cfg : CSVCfg) (c : Char) (rest : List Char)
    (s : List Char) (r : List (List Char)) (h1 : c ≠ cfg.esc) (h2 : c = cfg.delim) :
    csvNextAux cfg (c :: rest) false s r = csvNextAux cfg rest false [] (r ++ [s]) := by
  rw [csvNextAux_cons, if_neg (fun h => h1 h.1), if_neg h1, if_pos ⟨h2, rfl⟩]

theorem csvNextAux_lb (cfg : CSVCfg) (c : Char) (rest : List Char)
    (s : List Char) (r : List (List Char)) (h1 : c ≠ cfg.esc) (h2 : c ≠ cfg.delim)
    (h3 : c = cfg.lb) :
    csvNextAux cfg (c :: rest) false s r = some (r ++ [s], rest) := by
  rw [csvNextAux_cons, if_neg (fun h => h1 h.1), if_neg h1, if_neg (fun h => h2 h.1),
    if_pos ⟨h3, rfl⟩]

theorem csvNextAux_plain (cfg : CSVCfg) (c : Char) (rest : List Char) (e : Bool)
    (s : List Char) (r : List (List Char)) (h1 : c ≠ cfg.esc) (h2 : c ≠ cfg.delim)
    (h3 : c ≠ cfg.lb) :
    csvNextAux cfg (c :: rest) e s r = csvNextAux cfg rest e (s ++ [c]) r := by
  rw [csvNextAux_cons, if_neg (fun h => h1 h.1), if_neg h1, if_neg (fun h => h2 h.1),
    if_neg (fun h => h3 h.1)]

/-- Input of the doubled-escape example of the spec: a comma, a doubled quote,
a comma, then a quoted field containing a doubled quote. -/
def inputC1 : String := ",\"\",\" \"\" \""

/-- C1: whenever the current character of the reader is the escape character and
the peeked next character is also the escape character, it consumes both,
appends exactly one literal escape character to the current field, and
leaves the escaped flag unchanged; concretely, the input of inputC1 parses
to the single record consisting of the empty field, a field holding one
double quote, and the field of a space, a double quote and a space. -/
theorem c1_doubled_escape :
    (∀ (rest : List Char) (e : Bool) (s : List Char) (r : List (List Char)),
      rest.head? = some stdCfg.esc →
      csvNextAux stdCfg (stdCfg.esc :: rest) e s r =
        csvNextAux stdCfg rest.tail e (s ++ [stdCfg.esc]) r) ∧
    csvRead stdCfg inputC1.toList = [[[], ['\"'], [' ', '\"', ' ']]] := by
  constructor
  · intro rest e s r hpeek
    cases rest with
    | nil => simp at hpeek
    | cons c2 rest2 =>
      simp only [List.head?_cons, Option.some.injEq] at hpeek
      rw [csvNextAux_qq_cons stdCfg stdCfg.esc c2 rest2 e s r rfl hpeek]
      rfl
  · decide

/-- C1 witness: the doubled-escape step at a concrete state - stream
holding two double quotes, empty accumulators - consumes both quotes and
appends one literal quote. -/
theorem c1_doubled_escape_witness :
    csvNextAux stdCfg ['\"', '\"'] false [] [] = csvNextAux stdCfg [] false ['\"'] [] :=
  c1_doubled_escape.1 ['\"'] false [] [] rfl

/-- C2 counterexample: on the input of a letter followed by a comma, the
stream is exhausted in a state whose record accumulator is non-empty (it
holds the already-closed first field) while the field accumulator is empty,
and the reader raises StopIteration instead of emitting a final record: the
whole input parses to zero records even though the accumulators were not
both empty. -/
theorem c2_counterexample :
    csvNextAux stdCfg ("a,".toList) false [] [] = csvNextAux stdCfg [] false [] [['a']] ∧
    csvNextAux stdCfg [] false [] [['a']] = none ∧
    ([['a']] : List (List Char)) ≠ [] ∧
    csvRead stdCfg ("a,".toList) = [] := by
  refine ⟨by decide, by decide, by decide, by decide⟩

/-- C2 (amended): when the character source is exhausted, the reader emits
one final record exactly when the field accumulator is non-empty - the
record accumulator alone does not trigger emission and its contents are
discarded - so the input of a, b, c separated by commas with no trailing
line break yields exactly one record, and empty input yields zero records
with no phantom trailing record. -/
theorem c2_end_of_source :
    (∀ (e : Bool) (s : List Char) (r : List (List Char)),
      csvNextAux stdCfg [] e s r = if s = [] then none else some (r ++ [s], [])) ∧
    csvRead stdCfg ("a,b,c".toList) = [[['a'], ['b'], ['c']]] ∧
    csvRead stdCfg ("".toList) = [] := by
  exact ⟨fun e s r => csvNextAux_nil stdCfg e s r, by decide, by decide⟩

/-- Splitting of a character list at the delimiter, carrying the current
partially accumulated field: returns the closed fields and the final field.
On text free of escape and line-break characters this is exactly the
field splitting the reader performs. -/
def splitF (d : Char) : List Char → List Char → List (List Char) × List Char
  | s, [] => ([], s)
  | s, c :: rest =>
    if c = d then (s :: (splitF d [] rest).1, (splitF d [] rest).2)
    else splitF d (s ++ [c]) rest

/-- Joining of chunks with a separator chunk between consecutive entries:
the re-joining, required by the claim, of fields with the delimiter and of records with the
line break. -/
def joinSep {α : Type} (sep : List α) : List (List α) → List α
  | [] => []
  | [x] => x
  | x :: xs => x ++ sep ++ joinSep sep xs

/-- Re-joining of a parsed result: the fields of each record joined with the
delimiter, the records joined with the line break. -/
def rejoinAll (cfg : CSVCfg) (rs : List (List (List Char))) : List Char :=
  joinSep [cfg.lb] (rs.map (joinSep [cfg.delim]))

theorem joinSep_cons_ne {α : Type} (sep x : List α) (xs : List (List α)) (h : xs ≠ []) :
    joinSep sep (x :: xs) = x ++ sep ++ joinSep sep xs := by
  cases xs with
  | nil => exact absurd rfl h
  | cons y ys => rfl

theorem splitF_cons (d c : Char) (s rest : List Char) :
    splitF d s (c :: rest) =
      if c = d then (s :: (splitF d [] rest).1, (splitF d [] rest).2)
      else splitF d (s ++ [c]) rest := by
  rw [splitF.eq_def]

/-- Joining the split fields with the delimiter restores the text. -/
theorem joinSep_splitF (d : Char) :
    ∀ (t s : List Char),
      joinSep [d] ((splitF d s t).1 ++ [(splitF d s t).2]) = s ++ t := by
  intro t
  induction t with
  | nil => intro s; simp [splitF, joinSep]
  | cons c rest ih =>
    intro s
    rw [splitF_cons]
    by_cases hc : c = d
    · rw [if_pos hc]
      have hne : (splitF d [] rest).1 ++ [(splitF d [] rest).2] ≠ [] := by simp
      calc joinSep [d] ((splitF d [] rest).1.cons s ++ [(splitF d [] rest).2])
          = joinSep [d] (s :: ((splitF d [] rest).1 ++ [(splitF d [] rest).2])) := by simp
        _ = s ++ [d] ++ joinSep [d] ((splitF d [] rest).1 ++ [(splitF d [] rest).2]) :=
            joinSep_cons_ne [d] s _ hne
        _ = s ++ [d] ++ ([] ++ rest) := by rw [ih []]
        _ = s ++ c :: rest := by simp [hc]
    · rw [if_neg hc, ih (s ++ [c])]
      simp

/-- A final field that comes back empty means the text was empty (with an
empty carried field) or ended in the delimiter. -/
theorem splitF_last_eq_nil (d : Char) :
    ∀ (t s : List Char), (splitF d s t).2 = [] →
      (s = [] ∧ t = []) ∨ t.getLast? = some d := by
  intro t
  induction t with
  | nil => intro s h; exact Or.inl ⟨h, rfl⟩
  | cons c rest ih =>
    intro s h
    rw [splitF_cons] at h
    by_cases hc : c = d
    · rw [if_pos hc] at h
      rcases ih [] h with ⟨-, hrest⟩ | hrest
      · subst hrest
        simp [hc]
      · right
        cases rest with
        | nil => simp at hrest
        | cons x xs => rw [List.getLast?_cons_cons]; exact hrest
    · rw [if_neg hc] at h
      rcases ih (s ++ [c]) h with ⟨habs, -⟩ | hrest
      · simp at habs
      · right
        cases rest with
        | nil => simp at hrest
        | cons x xs => rw [List.getLast?_cons_cons]; exact hrest

/-- Every list containing a given element splits at its first occurrence. -/
theorem exists_first_occ {α : Type} [DecidableEq α] (a : α) :
    ∀ (l : List α), a ∈ l → ∃ l1 l2, l = l1 ++ a :: l2 ∧ ∀ c ∈ l1, c ≠ a := by
  intro l
  induction l with
  | nil => intro h; simp at h
  | cons b l ih =>
    intro h
    by_cases hb : b = a
    · exact ⟨[], l, by simp [hb], by simp⟩
    · have hmem : a ∈ l := by
        rcases List.mem_cons.mp h with h1 | h1
        · exact absurd h1.symm hb
        · exact h1
      obtain ⟨l1, l2, heq, hcl⟩ := ih hmem
      refine ⟨b :: l1, l2, by simp [heq], ?_⟩
      intro c hc
      rcases List.mem_cons.mp hc with h1 | h1
      · exact h1 ▸ hb
      · exact hcl c h1

/-- On a line free of escape and line-break characters followed by a line
break, the reader closes the record at the line break, producing exactly the
delimiter-split fields of the line and leaving the remainder of the stream
untouched. -/
theorem csvNextAux_line (line : List Char) :
    ∀ (rest s : List Char) (r : List (List Char)),
      (∀ c ∈ line, c ≠ stdCfg.esc ∧ c ≠ stdCfg.lb) →
      csvNextAux stdCfg (line ++ stdCfg.lb :: rest) false s r =
        some (r ++ (splitF stdCfg.delim s line).1 ++ [(splitF stdCfg.delim s line).2], rest) := by
  induction line with
  | nil =>
    intro rest s r hclean
    rw [List.nil_append,
      csvNextAux_lb stdCfg stdCfg.lb rest s r (by decide) (by decide) rfl]
    simp [splitF]
  | cons c line ih =>
    intro rest s r hclean
    have hc := hclean c (List.mem_cons_self c line)
    have hclean2 : ∀ x ∈ line, x ≠ stdCfg.esc ∧ x ≠ stdCfg.lb :=
      fun x hx => hclean x (List.mem_cons_of_mem c hx)
    rw [List.cons_append]
    by_cases hcd : c = stdCfg.delim
    · rw [csvNextAux_delim stdCfg c _ s r hc.1 hcd, ih rest [] (r ++ [s]) hclean2,
        splitF_cons, if_pos hcd]
      simp
    · rw [csvNextAux_plain stdCfg c _ false s r hc.1 hcd hc.2, ih rest (s ++ [c]) r hclean2,
        splitF_cons, if_neg hcd]

/-- On text free of escape and line-break characters the reader consumes the
whole stream and emits the delimiter-split fields, except that it emits
nothing when the final field is empty. -/
theorem csvNextAux_noLb (text : List Char) :
    ∀ (s : List Char) (r : List (List Char)),
      (∀ c ∈ text, c ≠ stdCfg.esc ∧ c ≠ stdCfg.lb) →
      csvNextAux stdCfg text false s r =
        if (splitF stdCfg.delim s text).2 = [] then none
        else some (r ++ (splitF stdCfg.delim s text).1 ++ [(splitF stdCfg.delim s text).2], []) := by
  induction text with
  | nil =>
    intro s r hclean
    rw [csvNextAux_nil]
    simp [splitF]
  | cons c text ih =>
    intro s r hclean
    have hc := hclean c (List.mem_cons_self c text)
    have hclean2 : ∀ x ∈ text, x ≠ stdCfg.esc ∧ x ≠ stdCfg.lb :=
      fun x hx => hclean x (List.mem_cons_of_mem c hx)
    by_cases hcd : c = stdCfg.delim
    · rw [csvNextAux_delim stdCfg c _ s r hc.1 hcd, ih [] (r ++ [s]) hclean2,
        splitF_cons, if_pos hcd]
      split
      · rfl
      · simp
    · rw [csvNextAux_plain stdCfg c _ false s r hc.1 hcd hc.2, ih (s ++ [c]) r hclean2,
        splitF_cons, if_neg hcd]

/-- Round-trip for the unescaped subset, with the induction bounded by the
text length: a line break strictly shrinks the remaining text. -/
theorem roundtrip_aux :
    ∀ (n : Nat) (text : List Char), text.length ≤ n →
      (∀ c ∈ text, c ≠ stdCfg.esc) →
      text.getLast? ≠ some stdCfg.delim → text.getLast? ≠ some stdCfg.lb →
      rejoinAll stdCfg (csvRead stdCfg text) = text := by
  intro n
  induction n with
  | zero =>
    intro text hlen hclean hd hl
    have htext : text = [] := List.length_eq_zero.mp (by omega)
    subst htext
    rfl
  | succ n ih =>
    intro text hlen hclean hd hl
    by_cases hlb : stdCfg.lb ∈ text
    · obtain ⟨line, rest, heq, hline⟩ := exists_first_occ stdCfg.lb text hlb
      subst heq
      have hlineclean : ∀ c ∈ line, c ≠ stdCfg.esc ∧ c ≠ stdCfg.lb := by
        intro c hc
        exact ⟨hclean c (List.mem_append_left _ hc), hline c hc⟩
      have hnext : csvNext stdCfg (line ++ stdCfg.lb :: rest) =
          some ((splitF stdCfg.delim [] line).1 ++ [(splitF stdCfg.delim [] line).2], rest) := by
        rw [csvNext, csvNextAux_line line rest [] [] hlineclean]
        simp
      have hlast : (line ++ stdCfg.lb :: rest).getLast? = (stdCfg.lb :: rest).getLast? :=
        List.getLast?_append_cons line stdCfg.lb rest
      have hrestne : rest ≠ [] := by
        intro h0
        subst h0
        rw [hlast] at hl
        simp at hl
      have hlast2 : (line ++ stdCfg.lb :: rest).getLast? = rest.getLast? := by
        cases rest with
        | nil => exact absurd rfl hrestne
        | cons x xs => rw [hlast, List.getLast?_cons_cons]
      have hrlen : rest.length ≤ n := by
        have : (line ++ stdCfg.lb :: rest).length = line.length + 1 + rest.length := by
          simp [List.length_append]
          omega
        omega
      have hrclean : ∀ c ∈ rest, c ≠ stdCfg.esc := by
        intro c hc
        exact hclean c (List.mem_append_right _ (List.mem_cons_of_mem _ hc))
      have hih := ih rest hrlen hrclean (hlast2 ▸ hd) (hlast2 ▸ hl)
      have hcsne : csvRead stdCfg rest ≠ [] := by
        intro h0
        rw [h0] at hih
        exact hrestne (by simpa [rejoinAll, joinSep] using hih.symm)
      rw [csvRead_some stdCfg _ _ rest hnext, rejoinAll, List.map_cons,
        joinSep_cons_ne _ _ _ (by simpa using hcsne)]
      rw [joinSep_splitF stdCfg.delim line []]
      show [] ++ line ++ [stdCfg.lb] ++ rejoinAll stdCfg (csvRead stdCfg rest) = _
      rw [hih]
      simp
    · have hcleanall : ∀ c ∈ text, c ≠ stdCfg.esc ∧ c ≠ stdCfg.lb := by
        intro c hc
        exact ⟨hclean c hc, fun h0 => hlb (h0 ▸ hc)⟩
      by_cases hp2 : (splitF stdCfg.delim [] text).2 = []
      · have htext : text = [] := by
          rcases splitF_last_eq_nil stdCfg.delim text [] hp2 with ⟨-, h1⟩ | h1
          · exact h1
          · exact absurd h1 hd
        subst htext
        rfl
      · have hnext : csvNext stdCfg text =
            some ((splitF stdCfg.delim [] text).1 ++ [(splitF stdCfg.delim [] text).2], []) := by
          rw [csvNext, csvNextAux_noLb text [] [] hcleanall, if_neg hp2]
          simp
        rw [csvRead_some stdCfg _ _ [] hnext, csvRead_none stdCfg [] rfl]
        show joinSep [stdCfg.lb] [joinSep [stdCfg.delim] _] = text
        rw [show ∀ x : List Char, joinSep [stdCfg.lb] [x] = x from fun x => rfl]
        have := joinSep_splitF stdCfg.delim text []
        simpa using this

/-- C3 (amended): for every input text in the unescaped subset (no escape
characters anywhere) that does not end in the delimiter or the line break,
parsing the text into records and re-joining the fields of each record with the
delimiter and the records with the line break reproduces the original text
exactly. -/
theorem c3_roundtrip_unescaped (text : List Char)
    (hclean : ∀ c ∈ text, c ≠ stdCfg.esc)
    (hd : text.getLast? ≠ some stdCfg.delim)
    (hl : text.getLast? ≠ some stdCfg.lb) :
    rejoinAll stdCfg (csvRead stdCfg text) = text :=
  roundtrip_aux text.length text le_rfl hclean hd hl

/-- C3 witness: the round trip at a concrete two-record unescaped input. -/
theorem c3_roundtrip_unescaped_witness :
    rejoinAll stdCfg (csvRead stdCfg ("ab,c\nd".toList)) = "ab,c\nd".toList :=
  c3_roundtrip_unescaped ("ab,c\nd".toList) (by decide) (by decide) (by decide)

/-- C3 counterexample: the input of a letter followed by a line break lies
in the unescaped subset of the claim (it contains no escape character, and no
delimiter or line break inside field content), yet parsing and re-joining
produces just the letter: the trailing line break is not reproduced. -/
theorem c3_counterexample :
    (∀ c ∈ ("a\n".toList), c ≠ stdCfg.esc) ∧
    rejoinAll stdCfg (csvRead stdCfg ("a\n".toList)) = ['a'] ∧
    (['a'] : List Char) ≠ "a\n".toList := by
  refine ⟨by decide, by decide, by decide⟩

/-- A country record ("new parse 2.py" lines 1-49): name and region as the
raw stored strings, land area as an exact rational (Python float inputs),
population and net change as integers.  The name and region properties
lower-case the stored string on access. -/
structure Country where
  name : String
  region : String
  land_area : ℚ
  population : ℤ
  net_change : ℤ
deriving DecidableEq

/-- Model of Python str.lower(): lower-case every character. -/
def strLower (s : String) : String := ⟨s.data.map Char.toLower⟩

/-- Country.name property: the stored name, case-normalized by lower-casing. -/
def Country.nameL (c : Country) : String := strLower c.name

/-- Country.density property: population divided by land area. -/
def Country.density (c : Country) : ℚ := (c.population : ℚ) / c.land_area

/-- Country.rank: the sort key (negated population, negated density,
lower-cased name), compared lexicographically by the Python sorted builtin. -/
def Country.rank (c : Country) : ℤ × ℚ × String :=
  (-c.population, -c.density, c.nameL)

/-- The strict order that the Python sorted builtin induces on countries through the
Country.rank key: lexicographic comparison of the key tuples. -/
def rankLT (a b : Country) : Prop :=
  (Country.rank a).1 < (Country.rank b).1 ∨
    ((Country.rank a).1 = (Country.rank b).1 ∧
      ((Country.rank a).2.1 < (Country.rank b).2.1 ∨
        ((Country.rank a).2.1 = (Country.rank b).2.1 ∧
          (Country.rank a).2.2 < (Country.rank b).2.2)))

instance : DecidableRel rankLT := by
  intro a b
  unfold rankLT
  infer_instance

theorem rankLT_iff (a b : Country) :
    rankLT a b ↔
      b.population < a.population ∨
        (a.population = b.population ∧
          (b.density < a.density ∨
            (a.density = b.density ∧ a.nameL < b.nameL))) := by
  unfold rankLT Country.rank
  constructor
  · rintro (h | ⟨h1, h | ⟨h2, h3⟩⟩)
    · exact Or.inl (by simpa using h)
    · exact Or.inr ⟨by simpa using h1, Or.inl (by simpa using h)⟩
    · exact Or.inr ⟨by simpa using h1, Or.inr ⟨by simpa using h2, h3⟩⟩
  · rintro (h | ⟨h1, h | ⟨h2, h3⟩⟩)
    · exact Or.inl (by simpa using h)
    · exact Or.inr ⟨by simpa using h1, Or.inl (by simpa using h)⟩
    · exact Or.inr ⟨by simpa using h1, Or.inr ⟨by simpa using h2, h3⟩⟩

theorem rankLT_trans (a b c : Country) (hab : rankLT a b) (hbc : rankLT b c) :
    rankLT a c := by
  unfold rankLT at *
  rcases hab with h1 | ⟨h1, h2⟩
  · rcases hbc with g1 | ⟨g1, g2⟩
    · exact Or.inl (lt_trans h1 g1)
    · exact Or.inl (lt_of_lt_of_eq h1 g1)
  · rcases hbc with g1 | ⟨g1, g2⟩
    · exact Or.inl (lt_of_eq_of_lt h1 g1)
    · refine Or.inr ⟨h1.trans g1, ?_⟩
      rcases h2 with h2 | ⟨h2, h3⟩
      · rcases g2 with g2 | ⟨g2, g3⟩
        · exact Or.inl (lt_trans h2 g2)
        · exact Or.inl (lt_of_lt_of_eq h2 g2)
      · rcases g2 with g2 | ⟨g2, g3⟩
        · exact Or.inl (lt_of_eq_of_lt h2 g2)
        · exact Or.inr ⟨h2.trans g2, lt_trans h3 g3⟩

theorem rankLT_asymm (a b : Country) (hab : rankLT a b) (hba : rankLT b a) : False := by
  unfold rankLT at *
  rcases hab with h1 | ⟨h1, h2⟩
  · rcases hba with g1 | ⟨g1, g2⟩
    · exact lt_irrefl _ (lt_trans h1 g1)
    · exact lt_irrefl _ (lt_of_lt_of_eq h1 g1)
  · rcases hba with g1 | ⟨g1, g2⟩
    · exact lt_irrefl _ (lt_of_eq_of_lt h1 g1)
    · rcases h2 with h2 | ⟨h2, h3⟩
      · rcases g2 with g2 | ⟨g2, g3⟩
        · exact lt_irrefl _ (lt_trans h2 g2)
        · exact lt_irrefl _ (lt_of_lt_of_eq h2 g2)
      · rcases g2 with g2 | ⟨g2, g3⟩
        · exact lt_irrefl _ (lt_of_eq_of_lt h2 g2)
        · exact lt_irrefl _ (lt_trans h3 g3)

theorem rankLT_total_of_name_ne (a b : Country) (h : a.nameL ≠ b.nameL) :
    rankLT a b ∨ rankLT b a := by
  rcases lt_trichotomy (Country.rank a).1 (Country.rank b).1 with h1 | h1 | h1
  · exact Or.inl (Or.inl h1)
  · rcases lt_trichotomy (Country.rank a).2.1 (Country.rank b).2.1 with h2 | h2 | h2
    · exact Or.inl (Or.inr ⟨h1, Or.inl h2⟩)
    · rcases lt_or_gt_of_ne (show (Country.rank a).2.2 ≠ (Country.rank b).2.2 from h) with h3 | h3
      · exact Or.inl (Or.inr ⟨h1, Or.inr ⟨h2, h3⟩⟩)
      · exact Or.inr (Or.inr ⟨h1.symm, Or.inr ⟨h2.symm, h3⟩⟩)
    · exact Or.inr (Or.inr ⟨h1.symm, Or.inl h2⟩)
  · exact Or.inr (Or.inl h1)

/-- C4: the ranking used for the per-member breakdown orders members by
population descending, then density descending, then case-normalized name
ascending; it is transitive, and on members with pairwise distinct
case-normalized names it is a strict total order with no ties, so any two
sorted arrangements of the same members coincide and the 1-based rank
positions are uniquely determined. -/
theorem c4_ranking :
    (∀ a b : Country, rankLT a b ↔
      b.population < a.population ∨
        (a.population = b.population ∧
          (b.density < a.density ∨
            (a.density = b.density ∧ a.nameL < b.nameL)))) ∧
    (∀ a b c : Country, rankLT a b → rankLT b c → rankLT a c) ∧
    (∀ a b : Country, a.nameL ≠ b.nameL → (rankLT a b ↔ ¬ rankLT b a)) ∧
    (∀ l1 l2 : List Country, List.Perm l1 l2 → l1.Sorted rankLT → l2.Sorted rankLT →
      l1 = l2) := by
  refine ⟨rankLT_iff, rankLT_trans, ?_, ?_⟩
  · intro a b h
    constructor
    · intro hab hba
      exact rankLT_asymm a b hab hba
    · intro hnot
      rcases rankLT_total_of_name_ne a b h with h1 | h1
      · exact h1
      · exact absurd h1 hnot
  · intro l1 l2 hp hs1 hs2
    haveI : IsAntisymm Country rankLT :=
      ⟨fun a b hab hba => (rankLT_asymm a b hab hba).elim⟩
    exact List.eq_of_perm_of_sorted hp hs1 hs2

/-- Country of the C4 witness with the greater density. -/
def c4border : Country := ⟨"B", "r", 10, 100, 0⟩

/-- Country of the C4 witness with the smaller density. -/
def c4aland : Country := ⟨"a", "r", 20, 100, 0⟩

/-- C4 witness: for two concrete members with equal population, distinct
names and distinct densities, exactly one ranking direction holds. -/
theorem c4_ranking_witness : rankLT c4border c4aland ↔ ¬ rankLT c4aland c4border :=
  c4_ranking.2.2.1 c4border c4aland (by decide)

/-- A region as kept by the aggregator (draft "new parse.py" lines 87-102):
a name, the two running totals, and the member list. -/
structure Region where
  name : String
  population : ℤ
  land_area : ℚ
  countries : List Country

/-- Region.__init__: empty totals, empty member list. -/
def Region.mkNew (name : String) : Region := ⟨name, 0, 0, []⟩

/-- Region.append: add the land area and population of the member to the running
totals and the member to the list. -/
def Region.append (rg : Region) (c : Country) : Region :=
  { rg with
    land_area := rg.land_area + c.land_area
    population := rg.population + c.population
    countries := rg.countries ++ [c] }

theorem region_fold (cs : List Country) : ∀ (rg : Region),
    (cs.foldl Region.append rg).population = rg.population + (cs.map Country.population).sum ∧
    (cs.foldl Region.append rg).land_area = rg.land_area + (cs.map Country.land_area).sum ∧
    (cs.foldl Region.append rg).countries = rg.countries ++ cs := by
  induction cs with
  | nil => intro rg; simp
  | cons c cs ih =>
    intro rg
    rcases ih (rg.append c) with ⟨h1, h2, h3⟩
    refine ⟨?_, ?_, ?_⟩
    · rw [List.foldl_cons, h1]
      simp [Region.append]
      ring
    · rw [List.foldl_cons, h2]
      simp [Region.append]
      ring
    · rw [List.foldl_cons, h3]
      simp [Region.append]

/-- C7: after any sequence of appends starting from a fresh region, the
running population and land-area totals equal the sums of those fields over
the member list actually held, and the member list is exactly the appended
sequence. -/
theorem c7_region_totals (name : String) (cs : List Country) :
    (cs.foldl Region.append (Region.mkNew name)).population =
      ((cs.foldl Region.append (Region.mkNew name)).countries.map Country.population).sum ∧
    (cs.foldl Region.append (Region.mkNew name)).land_area =
      ((cs.foldl Region.append (Region.mkNew name)).countries.map Country.land_area).sum ∧
    (cs.foldl Region.append (Region.mkNew name)).countries = cs := by
  rcases region_fold cs (Region.mkNew name) with ⟨h1, h2, h3⟩
  rw [h1, h2, h3]
  simp [Region.mkNew]

/-- Accumulator state of PopulationStandardError ("new parse 2.py" lines
62-80): member count, population total, and the collected populations. -/
structure PSEState where
  length : ℕ
  total_pop : ℚ
  populations : List ℚ
deriving DecidableEq

/-- PopulationStandardError.__init__. -/
def PopulationStandardError.init : PSEState := ⟨0, 0, []⟩

/-- PopulationStandardError.visit: record the population of the member. -/
def PopulationStandardError.visit (st : PSEState) (c : Country) : PSEState :=
  ⟨st.length + 1, st.total_pop + (c.population : ℚ),
    st.populations ++ [(c.population : ℚ)]⟩

/-- PopulationStandardError.calculate: zero when fewer than two members were
seen, otherwise the square root of the sample variance divided by the
count.  The square root of the exact rational value stands for the
floating-point power 0.5. -/
noncomputable def PopulationStandardError.calculate (st : PSEState) : ℝ :=
  if st.length < 2 then 0
  else
    Real.sqrt
      ((((st.populations.map (fun x => (x - st.total_pop / st.length) ^ 2)).sum /
        ((st.length : ℚ) - 1)) / st.length : ℚ))

/-- The population values of a member list, as exact rationals. -/
def popList (cs : List Country) : List ℚ := cs.map (fun c => (c.population : ℚ))

theorem pse_fold : ∀ (cs : List Country) (st : PSEState),
    cs.foldl PopulationStandardError.visit st =
      ⟨st.length + cs.length, st.total_pop + (popList cs).sum,
        st.populations ++ popList cs⟩ := by
  intro cs
  induction cs with
  | nil => intro st; simp [popList]
  | cons c cs ih =>
    intro st
    rw [List.foldl_cons, ih]
    simp [PopulationStandardError.visit, popList]
    constructor
    · omega
    · ring

/-- C5: over any member list, the accumulated PopulationStandardError
finalizes to the square root of the sample variance of the population
values divided by the member count when there are at least two members, and
to the zero sentinel when there are fewer than two. -/
theorem c5_standard_error (cs : List Country) :
    PopulationStandardError.calculate
        (cs.foldl PopulationStandardError.visit PopulationStandardError.init) =
      if cs.length < 2 then 0
      else
        Real.sqrt
          (((((popList cs).map
              (fun x => (x - (popList cs).sum / cs.length) ^ 2)).sum /
            ((cs.length : ℚ) - 1)) / cs.length : ℚ)) := by
  rw [pse_fold cs PopulationStandardError.init]
  simp [PopulationStandardError.calculate, PopulationStandardError.init, popList]

/-- Accumulator state of PopulationAreaSimilarity ("new parse 2.py" lines
83-95): the running sums of squared land areas, squared populations, and
land-area-times-population products. -/
structure PASState where
  land_squared : ℚ
  population_squared : ℚ
  land_population_product : ℚ
deriving DecidableEq

/-- PopulationAreaSimilarity.__init__. -/
def PopulationAreaSimilarity.init : PASState := ⟨0, 0, 0⟩

/-- PopulationAreaSimilarity.visit. -/
def PopulationAreaSimilarity.visit (st : PASState) (c : Country) : PASState :=
  ⟨st.land_squared + c.land_area * c.land_area,
    st.population_squared + (c.population : ℚ) * (c.population : ℚ),
    st.land_population_product + c.land_area * (c.population : ℚ)⟩

/-- PopulationAreaSimilarity.calculate: the product sum divided by the
square root of the product of the two squared sums.  Python raises an
uncaught ZeroDivisionError when the denominator is zero; a division that
raises is modelled as an Except.error carrying the exception name. -/
noncomputable def PopulationAreaSimilarity.calculate (st : PASState) : Except String ℝ :=
  if st.population_squared * st.land_squared = 0 then
    Except.error "ZeroDivisionError"
  else
    Except.ok ((st.land_population_product : ℝ) /
      Real.sqrt ((st.population_squared * st.land_squared : ℚ)))

/-- A member whose population is zero (land area five). -/
def zeroPopCountry : Country := ⟨"nullland", "r", 5, 0, 0⟩

/-- C6: at a group whose members all have population zero, the sum of
squared populations is zero, so PopulationAreaSimilarity.calculate divides
by zero and raises an uncaught ZeroDivisionError instead of returning the
defined sentinel the specification requires. -/
theorem c6_zero_division :
    PopulationAreaSimilarity.calculate
        (([zeroPopCountry] : List Country).foldl PopulationAreaSimilarity.visit
          PopulationAreaSimilarity.init) =
      Except.error "ZeroDivisionError" := by
  simp [PopulationAreaSimilarity.calculate, PopulationAreaSimilarity.visit,
    PopulationAreaSimilarity.init, zeroPopCountry]

/-- A statistic calculator as consumed by Region.calculate ("new parse
2.py" lines 157-170): a state type, the constructed initial state, the
visit step, and the final calculation. -/
structure RegionStatCalculator (α : Type) where
  State : Type
  init : State
  visit : State → Country → State
  calculate : State → α

/-- Construct the calculator, feed every member to it, and finalize. -/
def runCalculator {α : Type} (f : RegionStatCalculator α) (cs : List Country) : α :=
  f.calculate (cs.foldl f.visit f.init)

/-- Region.calculate ("new parse 2.py" lines 157-170): construct the
requested calculators, pass every member to each, and return the tuple of
their outputs when more than one was requested - otherwise index the first
element of the output tuple, which raises an uncaught IndexError when no
calculator was requested. -/
def Region.calculate {α : Type} (countries : List Country)
    (functions : List (RegionStatCalculator α)) : Except String (α ⊕ List α) :=
  if functions.length > 1 then
    Except.ok (Sum.inr (functions.map (fun f => runCalculator f countries)))
  else
    match functions with
    | [] => Except.error "IndexError"
    | f :: _ => Except.ok (Sum.inl (runCalculator f countries))

/-- C10: calling Region.calculate with zero requested calculators always
raises an uncaught IndexError - the single-result branch indexes the first
element of the empty tuple - whereas any single requested calculator
produces its scalar; the empty-request case is safe only under the
precondition that at least one calculator is requested. -/
theorem c10_calculate_empty :
    (∀ (α : Type) (cs : List Country),
      Region.calculate cs ([] : List (RegionStatCalculator α)) =
        Except.error "IndexError") ∧
    (∀ (α : Type) (cs : List Country) (f : RegionStatCalculator α),
      Region.calculate cs [f] = Except.ok (Sum.inl (runCalculator f cs))) := by
  constructor
  · intro α cs
    rfl
  · intro α cs f
    rfl

/-- The case-insensitive string comparison of the header binder
(InsensitiveString.__eq__, which casefolds both sides; modelled by
lower-casing both sides). -/
def lowerEq (a b : String) : Bool := strLower a == strLower b

/-- CSVCountryHandler.on_header ("new parse.py" draft lines 263-270):
iterate the expected header names in order; locate each case-insensitively
in the received row (list.index with the case-insensitive equality),
raising an error naming the field as soon as one is absent; collect the
positions in expected order. -/
def bindHeader (received : List String) : List String → Except String (List ℕ)
  | [] => Except.ok []
  | name :: rest =>
    match received.findIdx? (fun h => lowerEq h name) with
    | none => Except.error name
    | some i =>
      match bindHeader received rest with
      | Except.error e => Except.error e
      | Except.ok idxs => Except.ok (i :: idxs)

/-- C8: header binding locates the position of each expected name in the
received row case-insensitively and returns the position mapping (the first
case-insensitive match of each expected name, in expected order); when some
expected name has no case-insensitive match it fails with an error naming
the first absent field in expected order. -/
theorem c8_bind_header :
    (∀ (received expected : List String) (missing : String),
      expected.find? (fun n => (received.findIdx? (fun h => lowerEq h n)).isNone) =
        some missing →
      bindHeader received expected = Except.error missing) ∧
    (∀ received expected : List String,
      expected.find? (fun n => (received.findIdx? (fun h => lowerEq h n)).isNone) =
        none →
      bindHeader received expected =
        Except.ok (expected.map
          (fun n => (received.findIdx? (fun h => lowerEq h n)).getD 0))) := by
  constructor
  · intro received expected
    induction expected with
    | nil => intro missing h; simp at h
    | cons name rest ih =>
      intro missing h
      by_cases hp : (received.findIdx? (fun h => lowerEq h name)).isNone = true
      · have hfind :
            List.find? (fun n => (received.findIdx? (fun h2 => lowerEq h2 n)).isNone)
              (name :: rest) = some name :=
          List.find?_cons_of_pos _ hp
        rw [hfind, Option.some.injEq] at h
        rw [bindHeader, Option.isNone_iff_eq_none.mp hp, h]
      · have hfind :
            List.find? (fun n => (received.findIdx? (fun h2 => lowerEq h2 n)).isNone)
              (name :: rest) =
            List.find? (fun n => (received.findIdx? (fun h2 => lowerEq h2 n)).isNone)
              rest :=
          List.find?_cons_of_neg _ hp
        rw [hfind] at h
        rcases ho : received.findIdx? (fun h => lowerEq h name) with _ | i
        · rw [ho] at hp; simp at hp
        · rw [bindHeader, ho, ih missing h]
  · intro received expected
    induction expected with
    | nil => intro h; rfl
    | cons name rest ih =>
      intro h
      by_cases hp : (received.findIdx? (fun h => lowerEq h name)).isNone = true
      · have hfind :
            List.find? (fun n => (received.findIdx? (fun h2 => lowerEq h2 n)).isNone)
              (name :: rest) = some name :=
          List.find?_cons_of_pos _ hp
        rw [hfind] at h
        simp at h
      · have hfind :
            List.find? (fun n => (received.findIdx? (fun h2 => lowerEq h2 n)).isNone)
              (name :: rest) =
            List.find? (fun n => (received.findIdx? (fun h2 => lowerEq h2 n)).isNone)
              rest :=
          List.find?_cons_of_neg _ hp
        rw [hfind] at h
        rcases ho : received.findIdx? (fun h => lowerEq h name) with _ | i
        · rw [ho] at hp; simp at hp
        · rw [bindHeader, ho, ih h, List.map_cons, ho]
          rfl

/-- A concrete received header row for the C8 witness. -/
def c8received : List String := ["Country", "Regions", "Population"]

/-- C8 witness: binding concrete expected names against the concrete
received row yields their case-insensitive positions, and an absent name is
reported by name. -/
theorem c8_bind_header_witness :
    bindHeader c8received ["population", "country"] = Except.ok [2, 0] ∧
    bindHeader c8received ["land area"] = Except.error "land area" :=
  ⟨c8_bind_header.2 c8received ["population", "country"] (by decide),
    c8_bind_header.1 c8received ["land area"] "land area" (by decide)⟩

/-- A Python float value: a finite value (exact rational), an infinity, or
nan. -/
inductive PyFloat where
  | finite (q : ℚ)
  | pinf
  | ninf
  | nan
deriving DecidableEq

/-- A field value as produced by set_type: an integer, a float, or the
unchanged string. -/
inductive TypedVal where
  | int (n : ℤ)
  | float (x : PyFloat)
  | str (s : String)
deriving DecidableEq

/-- Numeric value of a digit string, most significant digit first. -/
def digitsToNat (ds : List Char) : ℕ :=
  ds.foldl (fun acc c => 10 * acc + (c.toNat - Char.toNat '0')) 0

/-- The whitespace characters the Python numeric conversions strip from
both ends of a string (the ASCII ones; whitespace beyond ASCII is also
stripped by CPython but does not occur in this pipeline). -/
def pyIsSpace (c : Char) : Bool :=
  c = ' ' || c = '\t' || c = '\n' || c = '\r' || c = '\x0b' || c = '\x0c'

/-- Strip the stripped whitespace from both ends. -/
def stripWs (cs : List Char) : List Char :=
  ((cs.dropWhile pyIsSpace).reverse.dropWhile pyIsSpace).reverse

/-- Consume one optional leading sign: whether it was a minus, and the
remainder. -/
def splitSign : List Char → Bool × List Char
  | '-' :: rest => (true, rest)
  | '+' :: rest => (false, rest)
  | cs => (false, cs)

/-- A run of digits in which single underscores may stand strictly between
two digits, as the Python numeric conversions accept: returns the digits
with the underscores removed, or none when the run is empty or an
underscore is leading, trailing or doubled.  The flag records whether the
previous character was a digit.  (CPython also accepts digits beyond ASCII;
those do not occur in this pipeline.) -/
def digitRunAux : Bool → List Char → Option (List Char)
  | prev, [] => if prev then some [] else none
  | prev, c :: rest =>
    if c.isDigit then
      match digitRunAux true rest with
      | some ds => some (c :: ds)
      | none => none
    else if c = '_' ∧ prev then
      digitRunAux false rest
    else none

/-- A non-empty underscore-grouped digit run. -/
def digitRun (cs : List Char) : Option (List Char) := digitRunAux false cs

/-- A possibly empty underscore-grouped digit run. -/
def digitRunOpt (cs : List Char) : Option (List Char) :=
  if cs = [] then some [] else digitRun cs

/-- Model of the Python builtin int() on strings: strip surrounding
whitespace, one optional sign, then a non-empty digit run with optional
single underscores between digits. -/
def pyIntParse (s : String) : Option ℤ :=
  let p := splitSign (stripWs s.data)
  match digitRun p.2 with
  | some ds => some ((if p.1 then (-1 : ℤ) else 1) * (digitsToNat ds : ℤ))
  | none => none

/-- Split a character list at its first decimal point, if any. -/
def splitDot : List Char → List Char × Option (List Char)
  | [] => ([], none)
  | c :: rest =>
    if c = '.' then ([], some rest)
    else ((splitDot rest).1.cons c, (splitDot rest).2)

/-- Split a character list at its first exponent marker, if any. -/
def splitExp : List Char → List Char × Option (List Char)
  | [] => ([], none)
  | c :: rest =>
    if c = 'e' ∨ c = 'E' then ([], some rest)
    else ((splitExp rest).1.cons c, (splitExp rest).2)

/-- The exponent of a Python float literal: an optional sign and a
non-empty digit run. -/
def parseExpVal (cs : List Char) : Option ℤ :=
  let p := splitSign cs
  match digitRun p.2 with
  | some ds => some ((if p.1 then (-1 : ℤ) else 1) * (digitsToNat ds : ℤ))
  | none => none

/-- The unsigned numeric body of a Python float literal: digit runs around
an optional decimal point (at least one digit in total) followed by an
optional exponent; the value is the exact rational the literal denotes. -/
def parseFloatBody (body : List Char) : Option ℚ :=
  let pe := splitExp body
  let pd := splitDot pe.1
  match digitRunOpt pd.1, digitRunOpt ((pd.2).getD []) with
  | some ids, some fds =>
    if ids = [] ∧ fds = [] then none
    else
      match (match pe.2 with | none => some (0 : ℤ) | some ecs => parseExpVal ecs) with
      | some e =>
        some ((digitsToNat (ids ++ fds) : ℚ) * (10 : ℚ) ^ (e - (fds.length : ℤ)))
      | none => none
  | _, _ => none

/-- Lower-case every character (for the case-insensitive infinity and nan
spellings). -/
def lowerList (cs : List Char) : List Char := cs.map Char.toLower

/-- Model of the Python builtin float() on strings: strip surrounding
whitespace, one optional sign, then either a case-insensitive spelling of
infinity or nan, or a decimal literal with optional exponent and underscore
grouping.  A finite value is the exact rational the literal denotes (the
rounding to binary and the overflow of enormous literals to infinity are
idealized away, as binary floats are elsewhere in this development). -/
def pyFloatParse (s : String) : Option PyFloat :=
  let p := splitSign (stripWs s.data)
  let low := lowerList p.2
  if low = ("inf").data ∨ low = ("infinity").data then
    some (if p.1 then PyFloat.ninf else PyFloat.pinf)
  else if low = ("nan").data then some PyFloat.nan
  else
    match parseFloatBody p.2 with
    | some q => some (PyFloat.finite (if p.1 then -q else q))
    | none => none

/-- set_type ("new parse 2.py" lines 358-364): attempt the int cast, then
the float cast, then the str cast; the first success is returned, and the
str cast always succeeds with the original string.  A pure function of its
argument. -/
def set_type (s : String) : TypedVal :=
  match pyIntParse s with
  | some n => TypedVal.int n
  | none =>
    match pyFloatParse s with
    | some x => TypedVal.float x
    | none => TypedVal.str s

/-- The integer-parse grammar exactly as the claim words it - an optional
leading plus or minus with all remaining characters digits - stated as a
second definition following the words of the claim, to be compared with the
Python builtin that the program actually calls (pyIntParse): CPython int()
accepts strictly more, for instance surrounding whitespace and underscore
grouping. -/
def specIntParse (s : String) : Option ℤ :=
  match s.data with
  | [] => none
  | c :: rest =>
    let p : ℤ × List Char :=
      if c = '-' then (-1, rest) else if c = '+' then (1, rest) else (1, c :: rest)
    if p.2 ≠ [] ∧ p.2.all Char.isDigit then some (p.1 * (digitsToNat p.2 : ℤ))
    else none

/-- C9 counterexample: at the input of a space followed by the digits 1, 2,
3, the integer parse as the claim words it (optional leading sign, all
remaining characters digits) fails because of the leading space, and a
float parse succeeds with the value 123, so the claim as stated demands the
float value (or, under a strict reading of its float grammar, the unchanged
string) - yet the program returns the integer 123, because the Python int
builtin strips the whitespace and accepts the string. -/
theorem c9_counterexample :
    specIntParse " 123" = none ∧
    pyFloatParse " 123" = some (PyFloat.finite 123) ∧
    set_type " 123" = TypedVal.int 123 ∧
    TypedVal.int 123 ≠ TypedVal.float (PyFloat.finite 123) ∧
    TypedVal.int 123 ≠ TypedVal.str " 123" := by
  refine ⟨by decide, ?_, by decide, by decide, by decide⟩
  have h : pyFloatParse " 123" =
      some (PyFloat.finite (((123 : ℕ) : ℚ) *
        (10 : ℚ) ^ ((0 : ℤ) - ((0 : ℕ) : ℤ)))) := rfl
  rw [h]
  simp only [Option.some.injEq, PyFloat.finite.injEq]
  norm_num

/-- C9 (amended): set_type returns the integer value when the Python
integer conversion succeeds (surrounding whitespace stripped, an optional
leading plus or minus, then digits optionally grouped by single
underscores), else the float value when the Python float conversion
succeeds (decimal or exponent literals, infinities and nan, with the same
whitespace, sign and underscore tolerance), else the original string
unchanged, deterministically and without side effects; concretely the
string of 1, 2, 3 yields the integer 123, the string of 1, 2, dot, 5 yields
the float 25/2, the string of a, b, c is returned unchanged, and the
restored builtin tolerance shows in the space-prefixed 123 (integer), the
underscore-grouped 10 (integer), the exponent literal 1e3 (float 1000) and
the infinity spelling (float infinity). -/
theorem c9_set_type :
    set_type "123" = TypedVal.int 123 ∧
    set_type "12.5" = TypedVal.float (PyFloat.finite (25 / 2)) ∧
    set_type "abc" = TypedVal.str "abc" ∧
    set_type " 123" = TypedVal.int 123 ∧
    set_type "1_0" = TypedVal.int 10 ∧
    set_type "1e3" = TypedVal.float (PyFloat.finite 1000) ∧
    set_type "inf" = TypedVal.float PyFloat.pinf ∧
    (∀ (s : String) (n : ℤ), pyIntParse s = some n → set_type s = TypedVal.int n) ∧
    (∀ (s : String) (x : PyFloat), pyIntParse s = none → pyFloatParse s = some x →
      set_type s = TypedVal.float x) ∧
    (∀ s : String, pyIntParse s = none → pyFloatParse s = none →
      set_type s = TypedVal.str s) := by
  refine ⟨by decide, ?_, by decide, by decide, by decide, ?_, by decide, ?_, ?_, ?_⟩
  · have h : set_type "12.5" =
        TypedVal.float (PyFloat.finite (((125 : ℕ) : ℚ) *
          (10 : ℚ) ^ ((0 : ℤ) - ((1 : ℕ) : ℤ)))) := rfl
    rw [h]
    simp only [TypedVal.float.injEq, PyFloat.finite.injEq]
    norm_num
  · have h : set_type "1e3" =
        TypedVal.float (PyFloat.finite (((1 : ℕ) : ℚ) *
          (10 : ℚ) ^ ((1 : ℤ) * ((3 : ℕ) : ℤ) - ((0 : ℕ) : ℤ)))) := rfl
    rw [h]
    simp only [TypedVal.float.injEq, PyFloat.finite.injEq]
    norm_num
  · intro s n h
    rw [set_type, h]
  · intro s x h1 h2
    rw [set_type, h1, h2]
  · intro s h1 h2
    rw [set_type, h1, h2]

/-- C9 witness: the general clauses of c9_set_type applied at the concrete
strings of an underscore-grouped 12 (an integer), 2 dot 5 (a float), and a
string that no numeric conversion accepts. -/
theorem c9_set_type_witness :
    set_type "1_2" = TypedVal.int 12 ∧
    set_type "2.5" = TypedVal.float (PyFloat.finite (5 / 2)) ∧
    set_type "12a" = TypedVal.str "12a" :=
  ⟨c9_set_type.2.2.2.2.2.2.2.1 "1_2" 12 (by decide),
    c9_set_type.2.2.2.2.2.2.2.2.1 "2.5" (PyFloat.finite (5 / 2)) (by decide)
      (by
        have h : pyFloatParse "2.5" =
            some (PyFloat.finite (((25 : ℕ) : ℚ) *
              (10 : ℚ) ^ ((0 : ℤ) - ((1 : ℕ) : ℤ)))) := rfl
        rw [h]
        simp only [Option.some.injEq, PyFloat.finite.injEq]
        norm_num),
    c9_set_type.2.2.2.2.2.2.2.2.2 "12a" (by decide) (by decide)⟩
